import Mathlib

/-!
Verification development for the DSP `.params` parser (`parse_params.py`).
Strings are modelled as `List Char`; Python `\s` and `str.strip()` are modelled
over the six ASCII whitespace characters, which covers all inputs the format
uses.  File I/O is outside the model: the pipeline is modelled from the file
content onward.
-/

/-- Sequence of characters; the model of a Python `str`. -/
abbrev Str := List Char

/-- Whitespace test matching Python `\s` / `str.strip()` on ASCII text. -/
def isPySpace (c : Char) : Bool :=
  c = ' ' || c = '\t' || c = '\n' || c = '\r' || c = '\x0B' || c = '\x0C'

/-- Models Python `str.strip()`: drop leading and trailing whitespace. -/
def pyStrip (l : Str) : Str :=
  ((l.dropWhile isPySpace).reverse.dropWhile isPySpace).reverse

/-- Value of an ASCII digit character. -/
def digitVal (c : Char) : Nat := c.toNat - '0'.toNat

/-- Models Python `int()` on a string of decimal digits. -/
def digitsToNat (s : Str) : Nat := s.foldl (fun n c => 10 * n + digitVal c) 0

/-- ASCII digit character for `n < 10`. -/
def digitChar (n : Nat) : Char := Char.ofNat ('0'.toNat + n)

/-- Fueled decimal printer; the fuel is an upper bound on the digit count. -/
def natToStrAux : Nat → Nat → Str
  | 0, _ => []
  | f + 1, n => if n < 10 then [digitChar n] else natToStrAux f (n / 10) ++ [digitChar (n % 10)]

/-- Models Python `str(n)` / f-string formatting of a non-negative int. -/
def natToStr (n : Nat) : Str := natToStrAux (n + 1) n

/--
Match of the separator regex `\n\s*\n\s*\n` at the head of `l`
(the regex of `re.split` in `_split_into_blocks`).  With greedy backtracking
the regex matches at a position exactly when that position holds `'\n'` and
the maximal whitespace run from it contains at least three newlines, and the
match extends through the last newline of that run.  Returns the match length.
-/
def sepMatchLen (l : Str) : Option Nat :=
  match l with
  | [] => none
  | c :: rest =>
    if c = '\n' then
      let ws := rest.takeWhile isPySpace
      if 2 ≤ (ws.filter (fun d => d = '\n')).length then
        some (1 + (ws.length - (ws.reverse.takeWhile (fun d => d ≠ '\n')).length))
      else none
    else none

/--
Fueled scanner implementing `re.split(r'\n\s*\n\s*\n', content)`: at each
position, if the separator regex matches, cut there and continue after the
match.  Each step consumes at least one character, so fuel
`content.length + 1` always suffices.
-/
def reSplitAux : Nat → Str → Str → List Str
  | 0, l, cur => [cur.reverse ++ l]
  | f + 1, l, cur =>
    match l with
    | [] => [cur.reverse]
    | c :: rest =>
      match sepMatchLen (c :: rest) with
      | some n => cur.reverse :: reSplitAux f ((c :: rest).drop n) []
      | none => reSplitAux f rest (c :: cur)

/-- Models `re.split(r'\n\s*\n\s*\n', content)`. -/
def reSplit3nl (content : Str) : List Str := reSplitAux (content.length + 1) content []

/-- Models `DSPParamsParser._split_into_blocks`: split, strip, drop empties. -/
def split_into_blocks (content : Str) : List Str :=
  ((reSplit3nl content).map pyStrip).filter (fun b => !b.isEmpty)

/-- True when the separator regex matches at some position of `l`. -/
def containsSep : Str → Bool
  | [] => false
  | c :: rest => (sepMatchLen (c :: rest)).isSome || containsSep rest

/-- Models Python `str.split('\n')`: split at every newline, keeping empties. -/
def splitOnNl : Str → List Str
  | [] => [[]]
  | c :: rest =>
    if c = '\n' then [] :: splitOnNl rest
    else
      match splitOnNl rest with
      | [] => [[c]]
      | h :: t => (c :: h) :: t

/--
Match of `key ++ \s*=\s*(.+)` at the head of `l`, returning the stripped
captured group as in `match.group(1).strip()`.  The `(.+)` group is greedy,
so on a stripped line the group is everything from the first non-space
character after `=` to the end of the line.
-/
def matchKeyValAt (key : Str) (l : Str) : Option Str :=
  if key.isPrefixOf l then
    match (l.drop key.length).dropWhile isPySpace with
    | '=' :: r2 =>
      let v := r2.dropWhile isPySpace
      if v.isEmpty then none else some (pyStrip v)
    | _ => none
  else none

/-- Models `re.search(key + r'\s*=\s*(.+)', line)`: try every start position. -/
def searchKeyVal (key : Str) : Str → Option Str
  | [] => none
  | c :: rest =>
    match matchKeyValAt key (c :: rest) with
    | some v => some v
    | none => searchKeyVal key rest

/--
Match of `key ++ \s*=\s*(\d+)` at the head of `l`, returning the captured
digit run: the maximal run of decimal digits right after the whitespace
following `=`.
-/
def matchKeyDigitsAt (key : Str) (l : Str) : Option Str :=
  if key.isPrefixOf l then
    match (l.drop key.length).dropWhile isPySpace with
    | '=' :: r2 =>
      let ds := (r2.dropWhile isPySpace).takeWhile Char.isDigit
      if ds.isEmpty then none else some ds
    | _ => none
  else none

/-- Models `re.search(key + r'\s*=\s*(\d+)', line)`: try every start position. -/
def searchKeyDigits (key : Str) : Str → Option Str
  | [] => none
  | c :: rest =>
    match matchKeyDigitsAt key (c :: rest) with
    | some v => some v
    | none => searchKeyDigits key rest

/-- Partially extracted fields of one block, as built up by `_parse_block`. -/
structure BlockFields where
  cell_name : Option Str
  parameter_name : Option Str
  parameter_address : Option Str
deriving DecidableEq

/-- Models one iteration of the line loop of `DSPParamsParser._parse_block`. -/
def parse_line (f : BlockFields) (rawLine : Str) : BlockFields :=
  let line := pyStrip rawLine
  if "Cell Name".toList.isPrefixOf line then
    match searchKeyVal "Cell Name".toList line with
    | some v => { f with cell_name := some v }
    | none => f
  else if "Parameter Name".toList.isPrefixOf line then
    match searchKeyVal "Parameter Name".toList line with
    | some v => { f with parameter_name := some v }
    | none => f
  else if "Parameter Address".toList.isPrefixOf line then
    match searchKeyDigits "Parameter Address".toList line with
    | some v => { f with parameter_address := some v }
    | none => f
  else f

/-- Field extraction pass of `_parse_block` over the block's lines. -/
def extract_fields (block : Str) : BlockFields :=
  (splitOnNl block).foldl parse_line ⟨none, none, none⟩

/-- One parsed record: cell name, parameter name and address (a digit string). -/
structure ParameterRecord where
  cell_name : Str
  parameter_name : Str
  parameter_address : Str
deriving DecidableEq

/-- Models `DSPParamsParser._parse_block`: a record only if all three fields were found. -/
def parse_block (block : Str) : Option ParameterRecord :=
  match extract_fields block with
  | ⟨some c, some p, some a⟩ => some ⟨c, p, a⟩
  | _ => none

/-- Models `DSPParamsParser.parse_file` from the file content onward. -/
def parse_file (content : Str) : List ParameterRecord :=
  (split_into_blocks content).filterMap parse_block

example : parse_file "Cell Name = X\nParameter Name = p\nParameter Address = 7".toList =
    [⟨"X".toList, "p".toList, "7".toList⟩] := by decide

example : parse_file ("Cell Name = X\nParameter Name = p\nParameter Address = 7\n\n\n" ++
    "Cell Name = Y\nParameter Name = q92\nParameter Address = 810 etc").toList =
    [⟨"X".toList, "p".toList, "7".toList⟩, ⟨"Y".toList, "q92".toList, "810".toList⟩] := by decide

/-- Association-list lookup: the model of Python `dict[key]` / `key in dict`. -/
def lookupA {α β : Type} [DecidableEq α] : List (α × β) → α → Option β
  | [], _ => none
  | (k, v) :: rest, key => if key = k then some v else lookupA rest key

/-- Replace the value at an existing key, leaving other entries unchanged. -/
def updateA {α β : Type} [DecidableEq α] : List (α × β) → α → β → List (α × β)
  | [], _, _ => []
  | (k, v) :: rest, key, nv =>
    if key = k then (k, nv) :: rest else (k, v) :: updateA rest key nv

/-- Models Python `dict[key] = value`: overwrite if present, else append. -/
def insertA {α β : Type} [DecidableEq α] (m : List (α × β)) (k : α) (v : β) : List (α × β) :=
  match lookupA m k with
  | some _ => updateA m k v
  | none => m ++ [(k, v)]

/-- Models the `param_lookup` dict built in `save_to_xml`. -/
def param_lookup_of (store : List ParameterRecord) : List ((Str × Str) × Str) :=
  store.foldl (fun acc r => insertA acc (r.cell_name, r.parameter_name) r.parameter_address) []

/-- Insert into a list acting as a set; models Python `set.add`. -/
def insertDistinct (s : List Nat) (a : Nat) : List Nat := if a ∈ s then s else s ++ [a]

/-- Left fold of `insertDistinct`: the distinct values of `l` in first-occurrence order. -/
def dedupF (l : List Nat) : List Nat := l.foldl insertDistinct []

/-- Insert a string into a list if not already present; models the
`if address not in cell_addresses[cell_name]` append of `get_cells_with_address_lists`. -/
def insertDistinctS (s : List Str) (a : Str) : List Str := if a ∈ s then s else s ++ [a]

/-- Left fold of `insertDistinctS`: distinct strings in first-occurrence order. -/
def sdedup (l : List Str) : List Str := l.foldl insertDistinctS []

/-- Per-cell aggregate of `get_cells_with_address_ranges`; the `addresses`
set is modelled as a duplicate-free list. -/
structure RangeInfo where
  min_address : Nat
  max_address : Nat
  count : Nat
  addresses : List Nat
deriving DecidableEq

/-- One loop iteration of `get_cells_with_address_ranges`. -/
def rangeStep (acc : List (Str × RangeInfo)) (r : ParameterRecord) : List (Str × RangeInfo) :=
  let a := digitsToNat r.parameter_address
  match lookupA acc r.cell_name with
  | none => acc ++ [(r.cell_name, ⟨a, a, 1, [a]⟩)]
  | some info =>
    let addrs := insertDistinct info.addresses a
    updateA acc r.cell_name
      ⟨Nat.min info.min_address a, Nat.max info.max_address a, addrs.length, addrs⟩

/-- Models `DSPParamsParser.get_cells_with_address_ranges`. -/
def get_cells_with_address_ranges (store : List ParameterRecord) : List (Str × RangeInfo) :=
  store.foldl rangeStep []

/-- One loop iteration of `get_cells_with_address_lists` (before sorting). -/
def listStep (acc : List (Str × List Str)) (r : ParameterRecord) : List (Str × List Str) :=
  match lookupA acc r.cell_name with
  | none => acc ++ [(r.cell_name, [r.parameter_address])]
  | some l =>
    if r.parameter_address ∈ l then acc
    else updateA acc r.cell_name (l ++ [r.parameter_address])

/-- Unsorted per-cell distinct address strings, in first-occurrence order. -/
def rawLists (store : List ParameterRecord) : List (Str × List Str) :=
  store.foldl listStep []

/-- Numeric key order used by `sort(key=int)`. -/
def addrLe (a b : Str) : Prop := digitsToNat a ≤ digitsToNat b

instance : DecidableRel addrLe := fun a b => Nat.decLe (digitsToNat a) (digitsToNat b)

/-- Models `DSPParamsParser.get_cells_with_address_lists`; `list.sort(key=int)`
is a stable sort by integer value, modelled by insertion sort on `addrLe`. -/
def get_cells_with_address_lists (store : List ParameterRecord) : List (Str × List Str) :=
  (rawLists store).map (fun p => (p.1, List.insertionSort addrLe p.2))

/-- Address strings of the records of cell `c`, in store order (with duplicates). -/
def cellStrs (store : List ParameterRecord) (c : Str) : List Str :=
  (store.filter (fun r => r.cell_name == c)).map (fun r => r.parameter_address)

/-- Integer addresses of the records of cell `c`, in store order (with duplicates). -/
def cellAddrs (store : List ParameterRecord) (c : Str) : List Nat :=
  (cellStrs store c).map digitsToNat

example :
    lookupA (get_cells_with_address_ranges
      [⟨"X".toList, "p".toList, "7".toList⟩, ⟨"X".toList, "q".toList, "9".toList⟩,
       ⟨"X".toList, "r".toList, "7".toList⟩]) "X".toList =
    some ⟨7, 9, 2, [7, 9]⟩ := by decide

example :
    lookupA (get_cells_with_address_lists
      [⟨"X".toList, "p".toList, "9".toList⟩, ⟨"X".toList, "q".toList, "7".toList⟩,
       ⟨"X".toList, "r".toList, "7".toList⟩]) "X".toList =
    some ["7".toList, "9".toList] := by decide

/-- One entry of the `param_mapping` catalogue of `save_to_xml`, as a tagged
union over the four key sets a value dict can carry.  Every variant carries
the entry's `comment` string. -/
inductive MappingInfo where
  | pattern (cell_name parameter_name comment : Str)
  | filter_bank (cell_name comment : Str)
  | search_pattern (pat comment : Str)
  | cell_pattern (cellPat paramPat channel comment : Str)
deriving DecidableEq

/-- Comment carried by a catalogue entry (`mapping_info["comment"]`). -/
def comment_of : MappingInfo → Str
  | .pattern _ _ cm => cm
  | .filter_bank _ cm => cm
  | .search_pattern _ cm => cm
  | .cell_pattern _ _ _ cm => cm

/-- The `param_mapping` catalogue of `save_to_xml`, in declaration order. -/
def param_mapping : List (Str × MappingInfo) :=
  [ ("balanceRegister".toList,
      .pattern "L-R Balance.Balance".toList "DCInpAlg145X11value".toList
        "L-R Balance control".toList),
    ("muteInvertRegister".toList,
      .pattern "Soft Mute".toList "ExternalGainAlgSlew145X1slew_mode".toList
        "Soft mute invert control".toList),
    ("volumeControlRegister".toList,
      .pattern "MasterVol".toList "HWGainADAU145XAlg5target".toList
        "Master volume control".toList),
    ("volumeLimitPiRegister".toList,
      .pattern "VolumeLimitPi".toList "HWGainADAU145XAlg6target".toList
        "Volume limit for Pi input".toList),
    ("volumeLimitSPDIFRegister".toList,
      .pattern "VolumeLimitSPDIF".toList "HWGainADAU145XAlg7target".toList
        "Volume limit for SPDIF input".toList),
    ("readSPDIFOnRegister".toList,
      .pattern "Input Detection.SPDIF on read".toList "ReadBackAlgNewSigma3001Value".toList
        "Read SPDIF on status".toList),
    ("channelSelectARegister".toList,
      .pattern "Channel Select.Ch_A".toList "monomuxSigma300ns4index".toList
        "Channel A selection".toList),
    ("channelSelectBRegister".toList,
      .pattern "Channel Select.Ch_B".toList "monomuxSigma300ns3index".toList
        "Channel B selection".toList),
    ("channelSelectCRegister".toList,
      .pattern "Channel Select.Ch_C".toList "monomuxSigma300ns2index".toList
        "Channel C selection".toList),
    ("channelSelectDRegister".toList,
      .pattern "Channel Select.Ch_D".toList "monomuxSigma300ns1index".toList
        "Channel D selection".toList),
    ("invertARegister".toList,
      .pattern "Loudspeaker EQ.Invert_A".toList "EQS300Invert4invert".toList
        "Invert channel A".toList),
    ("invertBRegister".toList,
      .pattern "Loudspeaker EQ.Invert_B".toList "EQS300Invert3invert".toList
        "Invert channel B".toList),
    ("invertCRegister".toList,
      .pattern "Loudspeaker EQ.Invert_C".toList "EQS300Invert2invert".toList
        "Invert channel C".toList),
    ("invertDRegister".toList,
      .pattern "Loudspeaker EQ.Invert_D".toList "EQS300Invert1invert".toList
        "Invert channel D".toList),
    ("delayARegister".toList,
      .pattern "Delay_A".toList "DelaySigma300Alg1delay".toList
        "Delay for channel A".toList),
    ("delayBRegister".toList,
      .pattern "Delay_B".toList "DelaySigma300Alg4delay".toList
        "Delay for channel B".toList),
    ("delayCRegister".toList,
      .pattern "Delay_C".toList "DelaySigma300Alg3delay".toList
        "Delay for channel C".toList),
    ("delayDRegister".toList,
      .pattern "Delay_D".toList "DelaySigma300Alg2delay".toList
        "Delay for channel D".toList),
    ("readIsDaisyChainSlaveRegister".toList,
      .search_pattern "readIsDaisyChainSlave".toList
        "Read daisy chain slave status - need to find in .params".toList),
    ("sensitivitySPDIFRegister".toList,
      .search_pattern "sensitivitySPDIF".toList
        "SPDIF sensitivity - need to find in .params".toList),
    ("enableSPDIFRegister".toList,
      .search_pattern "enableSPDIF".toList
        "Enable SPDIF - need to find in .params".toList),
    ("tuningForkPitchRegister".toList,
      .search_pattern "tuningForkPitch".toList
        "Tuning fork pitch - need to find in .params".toList),
    ("tuningForkOnRegister".toList,
      .search_pattern "tuningForkOn".toList
        "Tuning fork on - need to find in .params".toList),
    ("IIR_A".toList,
      .filter_bank "Loudspeaker EQ.IIR_A".toList
        "IIR filter bank for channel A".toList),
    ("IIR_B".toList,
      .filter_bank "Loudspeaker EQ.IIR_B".toList
        "IIR filter bank for channel B".toList),
    ("IIR_C".toList,
      .filter_bank "Loudspeaker EQ.IIR_C".toList
        "IIR filter bank for channel C".toList),
    ("IIR_D".toList,
      .filter_bank "Loudspeaker EQ.IIR_D".toList
        "IIR filter bank for channel D".toList),
    ("toneControlLeftRegisters".toList,
      .filter_bank "Tone Controls.ToneControl_L".toList
        "Tone control filter bank for left channel".toList),
    ("toneControlRightRegisters".toList,
      .filter_bank "Tone Controls.ToneControl_R".toList
        "Tone control filter bank for right channel".toList),
    ("customFilterRegisterBankLeft".toList,
      .filter_bank "Room Compensation.IIR_L".toList
        "Custom filter bank for left channel (room compensation)".toList),
    ("customFilterRegisterBankRight".toList,
      .filter_bank "Room Compensation.IIR_R".toList
        "Custom filter bank for right channel (room compensation)".toList),
    ("levelsARegister".toList,
      .cell_pattern "Levels".toList "HWGainADAU145XAlg.*target".toList "A".toList
        "Level control for channel A - need to identify specific parameter".toList),
    ("levelsBRegister".toList,
      .cell_pattern "Levels".toList "HWGainADAU145XAlg.*target".toList "B".toList
        "Level control for channel B - need to identify specific parameter".toList),
    ("levelsCRegister".toList,
      .cell_pattern "Levels".toList "HWGainADAU145XAlg.*target".toList "C".toList
        "Level control for channel C - need to identify specific parameter".toList),
    ("levelsDRegister".toList,
      .cell_pattern "Levels".toList "HWGainADAU145XAlg.*target".toList "D".toList
        "Level control for channel D - need to identify specific parameter".toList) ]

/--
Models the `get_param_address` helper of `save_to_xml`.  The
`search_pattern` branch of the source iterates over the records doing
case-insensitive substring checks but its loop body is `pass`; the branch
unconditionally returns `None`, so it is modelled as `none`.  The
`cell_pattern` branch unconditionally returns the string `"UNKNOWN"`.
-/
def get_param_address (store : List ParameterRecord) (info : MappingInfo) : Option Str :=
  match info with
  | .pattern c p _ => lookupA (param_lookup_of store) (c, p)
  | .filter_bank c _ =>
    match lookupA (get_cells_with_address_ranges store) c with
    | some ri => some (natToStr ri.min_address ++ '/' :: natToStr ri.count)
    | none => none
  | .search_pattern _ _ => none
  | .cell_pattern _ _ _ _ => some "UNKNOWN".toList

/-- Substring test; models Python `sub in s`. -/
def containsSub (sub : Str) : Str → Bool
  | [] => sub.isEmpty
  | c :: rest => sub.isPrefixOf (c :: rest) || containsSub sub rest

/-- Attribute string chosen for a catalogue entry's type id in `save_to_xml`. -/
def attrs_for (ty : Str) : Str :=
  if "channelSelect".toList.isPrefixOf ty then
    "channels=\"left,right,mono,side\" multiplier=\"1\" storable=\"yes\"".toList
  else if "delay".toList.isPrefixOf ty then
    "maxDelay=\"2000\" storable=\"yes\"".toList
  else if decide (ty ∈ ["volumeControlRegister".toList, "volumeLimitPiRegister".toList,
      "volumeLimitSPDIFRegister".toList, "balanceRegister".toList,
      "muteInvertRegister".toList, "enableSPDIFRegister".toList])
    || "invert".toList.isPrefixOf ty || "levels".toList.isPrefixOf ty
    || containsSub "Filter".toList ty || "IIR_".toList.isPrefixOf ty
    || containsSub "toneControl".toList ty then
    "storable=\"yes\"".toList
  else []

/-- The sixteen-space indent of every emitted descriptor line. -/
def xml_indent : Str := "                ".toList

/-- Line emitted by `save_to_xml` for one catalogue entry: a metadata value
element when the entry resolved, a `NOT MAPPED` comment when it did not. -/
def emit_mapped_line (store : List ParameterRecord) (ty : Str) (info : MappingInfo) : Str :=
  match get_param_address store info with
  | some addr =>
    let attrs := attrs_for ty
    if !attrs.isEmpty then
      xml_indent ++ "<metadata type=\"".toList ++ ty ++ "\" ".toList ++ attrs ++
        ">".toList ++ addr ++ "</metadata>".toList
    else
      xml_indent ++ "<metadata type=\"".toList ++ ty ++ "\">".toList ++ addr ++
        "</metadata>".toList
  | none =>
    xml_indent ++ "<!-- ".toList ++ ty ++ ": ".toList ++ comment_of info ++
      " - NOT MAPPED -->".toList

/-- Fixed per-card profile metadata of `save_to_xml`. -/
structure CardMeta where
  profileName : Str
  programID : Str
  modelName : Str
  modelID : Str
  defaultVersion : Str
deriving DecidableEq

/-- The `card_metadata` dict of `save_to_xml`. -/
def card_metadata : List (Str × CardMeta) :=
  [ ("beocreate".toList,
      ⟨"Beocreate Universal".toList, "beocreate-universal".toList,
       "Beocreate 4-Channel Amplifier".toList, "beocreate-4ca-mk1".toList, "11".toList⟩),
    ("dacdsp".toList,
      ⟨"DAC+ DSP Universal".toList, "dacdsp-universal".toList,
       "DAC+ DSP".toList, "hifiberry-dacdsp".toList, "15".toList⟩),
    ("dspaddon".toList,
      ⟨"DSP add-on".toList, "dsp-addon".toList,
       "DSP add-on".toList, "dsp-addon".toList, "14".toList⟩) ]

/-- Models Python `a or b` for an optional string `a`: `b` when `a` is
`None` or empty (falsy), else the string itself. -/
def pyOr (v : Option Str) (d : Str) : Str :=
  match v with
  | some s => if s.isEmpty then d else s
  | none => d

/--
Emitted `profileVersion` value of `save_to_xml` as a function of the
`card_type` and `version` arguments.  Mirrors
`if card_type and card_type in card_metadata: profile_version = version or
metadata['defaultVersion'] else: profile_version = version or '0'`;
the `ct.isEmpty` test models the truthiness check `if card_type and ...`.
-/
def profile_version_of (card_type version : Option Str) : Str :=
  match card_type with
  | some ct =>
    match lookupA card_metadata ct with
    | some m => if ct.isEmpty then pyOr version "0".toList else pyOr version m.defaultVersion
    | none => pyOr version "0".toList
  | none => pyOr version "0".toList

example : profile_version_of (some "beocreate".toList) none = "11".toList := by decide

example : profile_version_of (some "dacdsp".toList) (some "42".toList) = "42".toList := by decide

example : profile_version_of none (some []) = "0".toList := by decide

example :
    emit_mapped_line [] "levelsARegister".toList
      (.cell_pattern "Levels".toList "x".toList "A".toList "c".toList) =
    ("                <metadata type=\"levelsARegister\" storable=\"yes\">" ++
      "UNKNOWN</metadata>").toList := by decide

theorem lookupA_append {α β : Type} [DecidableEq α] (m l₂ : List (α × β)) (key : α) :
    lookupA (m ++ l₂) key =
      match lookupA m key with
      | some w => some w
      | none => lookupA l₂ key := by
  induction m with
  | nil => simp [lookupA]
  | cons hd tl ih =>
    obtain ⟨k, v⟩ := hd
    by_cases h : key = k <;> simp [lookupA, h, ih]

theorem lookupA_updateA {α β : Type} [DecidableEq α] (m : List (α × β)) (k : α) (v : β)
    (key : α) :
    lookupA (updateA m k v) key =
      if key = k then (lookupA m k).map (fun _ => v) else lookupA m key := by
  induction m with
  | nil => by_cases h : key = k <;> simp [lookupA, updateA, h]
  | cons hd tl ih =>
    obtain ⟨k', v'⟩ := hd
    by_cases hk : k = k'
    · subst hk
      by_cases h : key = k <;> simp [lookupA, updateA, h]
    · by_cases h : key = k' <;> by_cases h2 : key = k <;>
        simp_all [lookupA, updateA]

theorem lookupA_insertA {α β : Type} [DecidableEq α] (m : List (α × β)) (k : α) (v : β)
    (key : α) :
    lookupA (insertA m k v) key = if key = k then some v else lookupA m key := by
  unfold insertA
  cases hm : lookupA m k with
  | none =>
    rw [lookupA_append]
    by_cases h : key = k <;> simp [lookupA, h, hm]
    · cases lookupA m key <;> simp
  | some w =>
    rw [lookupA_updateA]
    by_cases h : key = k <;> simp [h, hm]

theorem param_lookup_of_append (store : List ParameterRecord) (r : ParameterRecord) :
    param_lookup_of (store ++ [r]) =
      insertA (param_lookup_of store) (r.cell_name, r.parameter_name) r.parameter_address := by
  simp [param_lookup_of, List.foldl_append]

/--
C5: the direct lookup used by the mapping resolver returns the address of
the last record in insertion order whose `(cell_name, parameter_name)` pair
matches exactly; when no record has the pair, the lookup reports not found
and the Direct catalogue entry renders as an unmapped comment.
-/
theorem direct_lookup_last_wins (store : List ParameterRecord) (c p : Str) :
    lookupA (param_lookup_of store) (c, p) =
      (store.reverse.find? (fun r => r.cell_name == c && r.parameter_name == p)).map
        (fun r => r.parameter_address) ∧
    ((∀ r ∈ store, ¬(r.cell_name = c ∧ r.parameter_name = p)) →
      lookupA (param_lookup_of store) (c, p) = none ∧
      ∀ ty cm, emit_mapped_line store ty (.pattern c p cm) =
        xml_indent ++ "<!-- ".toList ++ ty ++ ": ".toList ++ cm ++
          " - NOT MAPPED -->".toList) := by
  have main : lookupA (param_lookup_of store) (c, p) =
      (store.reverse.find? (fun r => r.cell_name == c && r.parameter_name == p)).map
        (fun r => r.parameter_address) := by
    induction store using List.reverseRecOn with
    | nil => rfl
    | append_singleton l r ih =>
      rw [param_lookup_of_append, lookupA_insertA, List.reverse_append]
      simp only [List.reverse_singleton, List.singleton_append, List.find?]
      by_cases h : r.cell_name = c ∧ r.parameter_name = p
      · obtain ⟨h1, h2⟩ := h
        have hb : (r.cell_name == c && r.parameter_name == p) = true := by
          simp [h1, h2]
        rw [hb]
        simp [h1, h2]
      · have hb : (r.cell_name == c && r.parameter_name == p) = false := by
          rcases not_and_or.mp h with h' | h' <;> simp [h']
        rw [hb]
        have hne : ¬((c, p) = (r.cell_name, r.parameter_name)) := by
          intro he
          exact h ⟨(Prod.mk.injEq _ _ _ _ ▸ he).1.symm, (Prod.mk.injEq _ _ _ _ ▸ he).2.symm⟩
        simp [hne, ih]
  refine ⟨main, fun hnone => ?_⟩
  have hfind : store.reverse.find? (fun r => r.cell_name == c && r.parameter_name == p)
      = none := by
    rw [List.find?_eq_none]
    intro r hr
    have := hnone r (List.mem_reverse.mp hr)
    simp only [Bool.and_eq_true, beq_iff_eq]
    tauto
  have hl : lookupA (param_lookup_of store) (c, p) = none := by rw [main, hfind]; rfl
  refine ⟨hl, fun ty cm => ?_⟩
  simp [emit_mapped_line, get_param_address, hl, comment_of]

/-- Concrete instantiation of `direct_lookup_last_wins`: a duplicated pair
resolves to the later record's address, and an absent pair is unmapped. -/
theorem direct_lookup_last_wins_witness :
    lookupA (param_lookup_of
      [⟨"X".toList, "p".toList, "5".toList⟩, ⟨"X".toList, "p".toList, "9".toList⟩])
      ("X".toList, "p".toList) = some "9".toList ∧
    lookupA (param_lookup_of
      [⟨"X".toList, "p".toList, "5".toList⟩, ⟨"X".toList, "p".toList, "9".toList⟩])
      ("X".toList, "q".toList) = none := by
  constructor
  · exact (direct_lookup_last_wins _ "X".toList "p".toList).1.trans (by decide)
  · exact ((direct_lookup_last_wins _ "X".toList "q".toList).2 (by decide)).1

/-- Predicate: all three fields were successfully extracted from the block. -/
def allFieldsFound (b : Str) : Bool :=
  (extract_fields b).cell_name.isSome && (extract_fields b).parameter_name.isSome &&
    (extract_fields b).parameter_address.isSome

theorem parse_block_isSome (b : Str) : (parse_block b).isSome = allFieldsFound b := by
  unfold parse_block allFieldsFound
  rcases hf : extract_fields b with ⟨c, p, a⟩
  cases c <;> cases p <;> cases a <;> rfl

theorem length_filterMap_eq_length_filter {α β : Type} (f : α → Option β) (l : List α) :
    (l.filterMap f).length = (l.filter (fun x => (f x).isSome)).length := by
  induction l with
  | nil => rfl
  | cons hd tl ih =>
    cases h : f hd <;> simp [List.filterMap_cons, List.filter_cons, h, ih]

/--
C2: the number of records produced by a parse equals the number of blocks
from which all three fields were extracted, and a block missing a field
contributes no record while the rest of the blocks still parse.
-/
theorem parse_count_eq_complete_blocks (content : Str) :
    (parse_file content).length =
      ((split_into_blocks content).filter allFieldsFound).length ∧
    ∀ b ∈ split_into_blocks content, allFieldsFound b = false → parse_block b = none := by
  constructor
  · rw [parse_file, length_filterMap_eq_length_filter]
    congr 1
    exact List.filter_congr (fun b _ => parse_block_isSome b)
  · intro b _ hb
    have := parse_block_isSome b
    rw [hb] at this
    exact Option.not_isSome_iff_eq_none.mp (by simp [this])

/-- Concrete instantiation of `parse_count_eq_complete_blocks`: one complete
block and one block missing its address line yield exactly one record. -/
theorem parse_count_eq_complete_blocks_witness :
    (parse_file ("Cell Name = X\nParameter Name = p\nParameter Address = 7\n\n\n" ++
      "Cell Name = Y\nParameter Name = q").toList).length = 1 ∧
    parse_block "Cell Name = Y\nParameter Name = q".toList = none := by
  constructor
  · exact (parse_count_eq_complete_blocks _).1.trans (by decide)
  · exact (parse_count_eq_complete_blocks
      ("Cell Name = X\nParameter Name = p\nParameter Address = 7\n\n\n" ++
        "Cell Name = Y\nParameter Name = q").toList).2
      "Cell Name = Y\nParameter Name = q".toList (by decide) (by decide)

theorem matchKeyDigitsAt_good {key l s : Str} (h : matchKeyDigitsAt key l = some s) :
    s ≠ [] ∧ ∀ c ∈ s, c.isDigit := by
  unfold matchKeyDigitsAt at h
  split at h
  · split at h
    · rename_i r2 heq
      dsimp only at h
      split at h
      · exact absurd h (by simp)
      · rename_i hne
        have hs : ((r2.dropWhile isPySpace).takeWhile Char.isDigit) = s :=
          Option.some.inj h
        subst hs
        refine ⟨fun hnil => hne (by simp [hnil]), fun c hc => List.mem_takeWhile_imp hc⟩
    · exact absurd h (by simp)
  · exact absurd h (by simp)

theorem searchKeyDigits_good {key : Str} :
    ∀ {l s : Str}, searchKeyDigits key l = some s → s ≠ [] ∧ ∀ c ∈ s, c.isDigit := by
  intro l
  induction l with
  | nil => intro s h; exact absurd h (by simp [searchKeyDigits])
  | cons c rest ih =>
    intro s h
    unfold searchKeyDigits at h
    split at h
    · rename_i v heq
      cases h
      exact matchKeyDigitsAt_good heq
    · exact ih h

/-- Invariant that the address field, if set, holds a non-empty digit run. -/
def addrOk (f : BlockFields) : Prop :=
  ∀ s, f.parameter_address = some s → s ≠ [] ∧ ∀ c ∈ s, c.isDigit

theorem parse_line_addrOk {f : BlockFields} (hf : addrOk f) (line : Str) :
    addrOk (parse_line f line) := by
  unfold parse_line
  dsimp only
  split
  · cases hs : searchKeyVal "Cell Name".toList (pyStrip line) with
    | none => exact hf
    | some v => intro s h; exact hf s h
  · split
    · cases hs : searchKeyVal "Parameter Name".toList (pyStrip line) with
      | none => exact hf
      | some v => intro s h; exact hf s h
    · split
      · cases hs : searchKeyDigits "Parameter Address".toList (pyStrip line) with
        | none => exact hf
        | some v =>
          intro s h
          have h' : some v = some s := h
          cases h'
          exact searchKeyDigits_good hs
      · exact hf

theorem foldl_parse_line_addrOk :
    ∀ (lines : List Str) (f : BlockFields), addrOk f → addrOk (lines.foldl parse_line f) := by
  intro lines
  induction lines with
  | nil => exact fun f hf => hf
  | cons hd tl ih => exact fun f hf => ih _ (parse_line_addrOk hf hd)

/--
C9: every record materialized by a parse has a non-empty address string made
only of decimal digits, so the integer conversions of the aggregators are
total on parsed stores.
-/
theorem record_address_digits (content : Str) (r : ParameterRecord)
    (h : r ∈ parse_file content) :
    r.parameter_address ≠ [] ∧ ∀ c ∈ r.parameter_address, c.isDigit := by
  rcases List.mem_filterMap.mp h with ⟨b, _, hpb⟩
  have hok : addrOk (extract_fields b) := by
    apply foldl_parse_line_addrOk
    intro s hs
    exact absurd hs (by simp)
  unfold parse_block at hpb
  rcases hfld : extract_fields b with ⟨c, p, a⟩
  rw [hfld] at hpb hok
  cases c <;> cases p <;> cases a <;> simp at hpb
  rename_i cv pv av
  have := hok av rfl
  rw [← hpb]
  exact this

/-- Concrete instantiation of `record_address_digits` on a one-block input. -/
theorem record_address_digits_witness :
    ("810".toList : Str) ≠ [] ∧ ∀ c ∈ ("810".toList : Str), c.isDigit := by
  have h := record_address_digits
    "Cell Name = Y\nParameter Name = q\nParameter Address = 810 etc".toList
    ⟨"Y".toList, "q".toList, "810".toList⟩ (by decide)
  exact h

theorem mem_insertDistinct {s : List Nat} {a x : Nat} :
    x ∈ insertDistinct s a ↔ x ∈ s ∨ x = a := by
  unfold insertDistinct
  split
  · rename_i hmem
    constructor
    · exact Or.inl
    · rintro (h | rfl)
      · exact h
      · exact hmem
  · simp

theorem nodup_insertDistinct {s : List Nat} (h : s.Nodup) (a : Nat) :
    (insertDistinct s a).Nodup := by
  unfold insertDistinct
  split
  · exact h
  · rename_i hmem
    simpa [List.nodup_append, h] using hmem

theorem dedupF_append_singleton (l : List Nat) (a : Nat) :
    dedupF (l ++ [a]) = insertDistinct (dedupF l) a := by
  simp [dedupF, List.foldl_append]

theorem mem_dedupF {l : List Nat} {x : Nat} : x ∈ dedupF l ↔ x ∈ l := by
  induction l using List.reverseRecOn with
  | nil => simp [dedupF]
  | append_singleton l a ih =>
    rw [dedupF_append_singleton]
    simp [mem_insertDistinct, ih]

theorem nodup_dedupF (l : List Nat) : (dedupF l).Nodup := by
  induction l using List.reverseRecOn with
  | nil => simp [dedupF]
  | append_singleton l a ih => rw [dedupF_append_singleton]; exact nodup_insertDistinct ih a

theorem mem_insertDistinctS {s : List Str} {a x : Str} :
    x ∈ insertDistinctS s a ↔ x ∈ s ∨ x = a := by
  unfold insertDistinctS
  split
  · rename_i hmem
    constructor
    · exact Or.inl
    · rintro (h | rfl)
      · exact h
      · exact hmem
  · simp

theorem sdedup_append_singleton (l : List Str) (a : Str) :
    sdedup (l ++ [a]) = insertDistinctS (sdedup l) a := by
  simp [sdedup, List.foldl_append]

theorem mem_sdedup {l : List Str} {x : Str} : x ∈ sdedup l ↔ x ∈ l := by
  induction l using List.reverseRecOn with
  | nil => simp [sdedup]
  | append_singleton l a ih =>
    rw [sdedup_append_singleton]
    simp [mem_insertDistinctS, ih]

theorem dedup_length_eq_of_mem_iff {α : Type} [DecidableEq α] {l₁ l₂ : List α}
    (h : ∀ x, x ∈ l₁ ↔ x ∈ l₂) : l₁.dedup.length = l₂.dedup.length := by
  have hf : l₁.toFinset = l₂.toFinset := by
    ext x
    simp [List.mem_toFinset, h x]
  rw [← List.card_toFinset, ← List.card_toFinset, hf]

theorem length_dedupF (l : List Nat) : (dedupF l).length = l.dedup.length := by
  have h1 : (dedupF l).Nodup := nodup_dedupF l
  calc (dedupF l).length = (dedupF l).dedup.length := by rw [List.dedup_eq_self.mpr h1]
    _ = l.dedup.length := dedup_length_eq_of_mem_iff (fun x => mem_dedupF)

theorem cellStrs_append_singleton (l : List ParameterRecord) (r : ParameterRecord) (c : Str) :
    cellStrs (l ++ [r]) c =
      cellStrs l c ++ (if r.cell_name = c then [r.parameter_address] else []) := by
  unfold cellStrs
  rw [List.filter_append]
  by_cases h : r.cell_name = c <;> simp [h]

theorem cellAddrs_append_singleton (l : List ParameterRecord) (r : ParameterRecord) (c : Str) :
    cellAddrs (l ++ [r]) c =
      cellAddrs l c ++ (if r.cell_name = c then [digitsToNat r.parameter_address] else []) := by
  unfold cellAddrs
  rw [cellStrs_append_singleton]
  by_cases h : r.cell_name = c <;> simp [h]

theorem natMin_eq_left {n m : Nat} (h : n ≤ m) : Nat.min n m = n := by
  unfold Nat.min; omega

theorem natMin_eq_right {n m : Nat} (h : m ≤ n) : Nat.min n m = m := by
  unfold Nat.min; omega

theorem natMax_eq_left {n m : Nat} (h : m ≤ n) : Nat.max n m = n := by
  unfold Nat.max; omega

theorem natMax_eq_right {n m : Nat} (h : n ≤ m) : Nat.max n m = m := by
  unfold Nat.max; omega

theorem natMin_le_left (n m : Nat) : Nat.min n m ≤ n := by
  unfold Nat.min; omega

theorem natMin_le_right (n m : Nat) : Nat.min n m ≤ m := by
  unfold Nat.min; omega

theorem le_natMax_left (n m : Nat) : n ≤ Nat.max n m := by
  unfold Nat.max; omega

theorem le_natMax_right (n m : Nat) : m ≤ Nat.max n m := by
  unfold Nat.max; omega

/-- Everything `get_cells_with_address_ranges` guarantees about one cell. -/
def RangesGood (store : List ParameterRecord) (acc : List (Str × RangeInfo)) : Prop :=
  ∀ c : Str,
    (lookupA acc c = none → cellAddrs store c = []) ∧
    ∀ info, lookupA acc c = some info →
      cellAddrs store c ≠ [] ∧
      info.addresses = dedupF (cellAddrs store c) ∧
      info.count = info.addresses.length ∧
      info.min_address ∈ info.addresses ∧
      info.max_address ∈ info.addresses ∧
      ∀ a ∈ info.addresses, info.min_address ≤ a ∧ a ≤ info.max_address

theorem ranges_spec (store : List ParameterRecord) :
    RangesGood store (get_cells_with_address_ranges store) := by
  induction store using List.reverseRecOn with
  | nil =>
    intro c
    refine ⟨fun _ => rfl, fun info h => ?_⟩
    simp [get_cells_with_address_ranges, lookupA] at h
  | append_singleton l r ih =>
    have hstep : get_cells_with_address_ranges (l ++ [r]) =
        rangeStep (get_cells_with_address_ranges l) r := by
      simp [get_cells_with_address_ranges, List.foldl_append]
    intro c
    rw [hstep]
    unfold rangeStep
    dsimp only
    by_cases hc : r.cell_name = c
    · subst hc
      rw [cellAddrs_append_singleton, if_pos rfl]
      cases hlook : lookupA (get_cells_with_address_ranges l) r.cell_name with
      | none =>
        dsimp only
        have hnil : cellAddrs l r.cell_name = [] := (ih r.cell_name).1 hlook
        rw [hnil]
        refine ⟨fun habs => ?_, fun info h => ?_⟩
        · rw [lookupA_append, hlook] at habs
          simp [lookupA] at habs
        · rw [lookupA_append, hlook] at h
          simp only [lookupA, if_pos rfl] at h
          cases h
          refine ⟨by simp, by simp [dedupF, insertDistinct], rfl, by simp, by simp, ?_⟩
          intro a ha
          simp at ha
          subst ha
          exact ⟨Nat.le_refl _, Nat.le_refl _⟩
      | some info₀ =>
        dsimp only
        obtain ⟨hne₀, haddr₀, hcount₀, hmin₀, hmax₀, hbound₀⟩ :=
          (ih r.cell_name).2 info₀ hlook
        refine ⟨fun habs => ?_, fun info h => ?_⟩
        · rw [lookupA_updateA, if_pos rfl, hlook] at habs
          simp at habs
        · rw [lookupA_updateA, if_pos rfl, hlook] at h
          simp only [Option.map_some'] at h
          cases h
          set a := digitsToNat r.parameter_address with ha
          dsimp only
          refine ⟨by simp, ?_, rfl, ?_, ?_, ?_⟩
          · rw [dedupF_append_singleton, ← haddr₀]
          · rcases Nat.le_total info₀.min_address a with hle | hle
            · rw [natMin_eq_left hle]
              exact mem_insertDistinct.mpr (Or.inl hmin₀)
            · rw [natMin_eq_right hle]
              exact mem_insertDistinct.mpr (Or.inr rfl)
          · rcases Nat.le_total info₀.max_address a with hle | hle
            · rw [natMax_eq_right hle]
              exact mem_insertDistinct.mpr (Or.inr rfl)
            · rw [natMax_eq_left hle]
              exact mem_insertDistinct.mpr (Or.inl hmax₀)
          · intro x hx
            rcases mem_insertDistinct.mp hx with hx | rfl
            · obtain ⟨h1, h2⟩ := hbound₀ x hx
              exact ⟨Nat.le_trans (natMin_le_left _ _) h1,
                Nat.le_trans h2 (le_natMax_left _ _)⟩
            · exact ⟨natMin_le_right _ _, le_natMax_right _ _⟩
    · have hca : cellAddrs (l ++ [r]) c = cellAddrs l c := by
        rw [cellAddrs_append_singleton, if_neg hc]
        simp
      rw [hca]
      cases hlook : lookupA (get_cells_with_address_ranges l) r.cell_name with
      | none =>
        dsimp only
        have hpres : lookupA (get_cells_with_address_ranges l ++
            [(r.cell_name, ⟨digitsToNat r.parameter_address, digitsToNat r.parameter_address,
              1, [digitsToNat r.parameter_address]⟩)]) c =
            lookupA (get_cells_with_address_ranges l) c := by
          rw [lookupA_append]
          cases hl2 : lookupA (get_cells_with_address_ranges l) c with
          | some w => rfl
          | none =>
            dsimp only
            unfold lookupA
            rw [if_neg (fun h : c = r.cell_name => hc h.symm)]
            rfl
        rw [hpres]
        exact ih c
      | some info₀ =>
        dsimp only
        have hpres : ∀ v, lookupA (updateA (get_cells_with_address_ranges l) r.cell_name v) c =
            lookupA (get_cells_with_address_ranges l) c := by
          intro v
          rw [lookupA_updateA, if_neg (fun h => hc (h.symm : r.cell_name = c))]
        rw [hpres]
        exact ih c

/-- Everything the pre-sort fold of `get_cells_with_address_lists` guarantees. -/
def ListsGood (store : List ParameterRecord) (acc : List (Str × List Str)) : Prop :=
  ∀ c : Str,
    (lookupA acc c = none → cellStrs store c = []) ∧
    ∀ entry, lookupA acc c = some entry →
      cellStrs store c ≠ [] ∧ entry = sdedup (cellStrs store c)

theorem lists_spec (store : List ParameterRecord) : ListsGood store (rawLists store) := by
  induction store using List.reverseRecOn with
  | nil =>
    intro c
    refine ⟨fun _ => rfl, fun entry h => ?_⟩
    simp [rawLists, lookupA] at h
  | append_singleton l r ih =>
    have hstep : rawLists (l ++ [r]) = listStep (rawLists l) r := by
      simp [rawLists, List.foldl_append]
    intro c
    rw [hstep]
    unfold listStep
    by_cases hc : r.cell_name = c
    · subst hc
      rw [cellStrs_append_singleton, if_pos rfl]
      cases hlook : lookupA (rawLists l) r.cell_name with
      | none =>
        dsimp only
        have hnil : cellStrs l r.cell_name = [] := (ih r.cell_name).1 hlook
        rw [hnil]
        refine ⟨fun habs => ?_, fun entry h => ?_⟩
        · rw [lookupA_append, hlook] at habs
          simp [lookupA] at habs
        · rw [lookupA_append, hlook] at h
          simp only [lookupA, if_pos rfl] at h
          cases h
          exact ⟨by simp, by simp [sdedup, insertDistinctS]⟩
      | some l0 =>
        dsimp only
        obtain ⟨hne₀, hsd₀⟩ := (ih r.cell_name).2 l0 hlook
        by_cases hmem : r.parameter_address ∈ l0
        · rw [if_pos hmem]
          refine ⟨fun habs => ?_, fun entry h => ?_⟩
          · rw [habs] at hlook
            cases hlook
          · rw [h] at hlook
            cases hlook
            refine ⟨by simp, ?_⟩
            rw [sdedup_append_singleton, ← hsd₀, insertDistinctS, if_pos hmem]
        · rw [if_neg hmem]
          refine ⟨fun habs => ?_, fun entry h => ?_⟩
          · rw [lookupA_updateA, if_pos rfl, hlook] at habs
            simp at habs
          · rw [lookupA_updateA, if_pos rfl, hlook] at h
            simp only [Option.map_some'] at h
            cases h
            refine ⟨by simp, ?_⟩
            rw [sdedup_append_singleton, ← hsd₀, insertDistinctS, if_neg hmem]
    · have hcs : cellStrs (l ++ [r]) c = cellStrs l c := by
        rw [cellStrs_append_singleton, if_neg hc]
        simp
      rw [hcs]
      cases hlook : lookupA (rawLists l) r.cell_name with
      | none =>
        dsimp only
        have hpres : lookupA (rawLists l ++ [(r.cell_name, [r.parameter_address])]) c =
            lookupA (rawLists l) c := by
          rw [lookupA_append]
          cases hl2 : lookupA (rawLists l) c with
          | some w => rfl
          | none =>
            dsimp only
            unfold lookupA
            rw [if_neg (fun h : c = r.cell_name => hc h.symm)]
            rfl
        rw [hpres]
        exact ih c
      | some l0 =>
        dsimp only
        by_cases hmem : r.parameter_address ∈ l0
        · rw [if_pos hmem]
          exact ih c
        · rw [if_neg hmem]
          have hpres : lookupA (updateA (rawLists l) r.cell_name
              (l0 ++ [r.parameter_address])) c = lookupA (rawLists l) c := by
            rw [lookupA_updateA, if_neg (fun h => hc (h.symm : r.cell_name = c))]
          rw [hpres]
          exact ih c

theorem lookupA_map_value {α β γ : Type} [DecidableEq α] (f : β → γ)
    (m : List (α × β)) (c : α) :
    lookupA (m.map (fun p => (p.1, f p.2))) c = (lookupA m c).map f := by
  induction m with
  | nil => rfl
  | cons hd tl ih =>
    obtain ⟨k, v⟩ := hd
    by_cases h : c = k <;> simp [lookupA, h, ih]

theorem cellAddrs_eq_nil_of {store : List ParameterRecord} {c : Str}
    (h : ∀ r ∈ store, r.cell_name ≠ c) : cellAddrs store c = [] := by
  unfold cellAddrs cellStrs
  have hf : store.filter (fun r => r.cell_name == c) = [] :=
    List.filter_eq_nil_iff.mpr (fun r hr => by simp [h r hr])
  rw [hf]
  rfl

theorem cellAddrs_ne_nil_of {store : List ParameterRecord} {c : Str}
    (h : ∃ r ∈ store, r.cell_name = c) : cellAddrs store c ≠ [] := by
  obtain ⟨r, hr, hcname⟩ := h
  unfold cellAddrs cellStrs
  intro habs
  have hmem : r ∈ store.filter (fun r => r.cell_name == c) :=
    List.mem_filter.mpr ⟨hr, by simp [hcname]⟩
  rw [List.map_eq_nil_iff.mp (List.map_eq_nil_iff.mp habs)] at hmem
  cases hmem

/--
C7: every per-cell aggregate of the range view satisfies
`min_address ≤ max_address`, its `count` equals the size of the cell's
distinct-address set (both the aggregate's own duplicate-free set and the
distinct addresses of the cell in the store), `min_address = max_address`
whenever the cell has exactly one distinct address, and `min_address` and
`max_address` are members of the set.
-/
theorem range_aggregate_invariants (store : List ParameterRecord) (c : Str) (info : RangeInfo)
    (h : lookupA (get_cells_with_address_ranges store) c = some info) :
    info.min_address ≤ info.max_address ∧
    info.addresses.Nodup ∧
    info.count = info.addresses.length ∧
    info.count = (cellAddrs store c).dedup.length ∧
    ((cellAddrs store c).dedup.length = 1 → info.min_address = info.max_address) ∧
    info.min_address ∈ info.addresses ∧ info.max_address ∈ info.addresses := by
  obtain ⟨hne, haddr, hcount, hmin, hmax, hbound⟩ := (ranges_spec store c).2 info h
  have hlen : info.addresses.length = (cellAddrs store c).dedup.length := by
    rw [haddr, length_dedupF]
  refine ⟨(hbound _ hmin).2, haddr ▸ nodup_dedupF _, hcount, hcount.trans hlen, ?_, hmin, hmax⟩
  intro h1
  obtain ⟨x, hx⟩ := List.length_eq_one.mp (hlen.trans h1)
  rw [hx] at hmin hmax
  simp at hmin hmax
  rw [hmin, hmax]

/-- Concrete instantiation of `range_aggregate_invariants`. -/
theorem range_aggregate_invariants_witness :
    (⟨7, 9, 2, [7, 9]⟩ : RangeInfo).min_address ≤ (⟨7, 9, 2, [7, 9]⟩ : RangeInfo).max_address ∧
    (⟨7, 9, 2, [7, 9]⟩ : RangeInfo).count = 2 := by
  have h := range_aggregate_invariants
    [⟨"X".toList, "p".toList, "7".toList⟩, ⟨"X".toList, "q".toList, "9".toList⟩,
     ⟨"X".toList, "r".toList, "7".toList⟩] "X".toList ⟨7, 9, 2, [7, 9]⟩ (by decide)
  exact ⟨h.1, h.2.2.2.1.trans (by decide)⟩

/-- Store of Scenario B: cell `Loudspeaker EQ.IIR_A` holding the eighty
distinct addresses 691 through 770. -/
def ex80store : List ParameterRecord :=
  (List.range 80).map
    (fun i => ⟨"Loudspeaker EQ.IIR_A".toList, "param".toList, natToStr (691 + i)⟩)

set_option maxRecDepth 40000 in
/--
C3: a FilterBank catalogue entry whose cell has at least one record resolves
to the string `min_address ++ "/" ++ count`, where `min_address` is the least
integer address of the cell and `count` the number of distinct integer
addresses; a FilterBank entry whose cell has no record resolves to `none`;
and on the Scenario B store the `Loudspeaker EQ.IIR_A` entry resolves to
`"691/80"`.
-/
theorem filter_bank_resolution :
    (∀ (store : List ParameterRecord) (c cm : Str),
      ((∃ r ∈ store, r.cell_name = c) →
        ∃ info, lookupA (get_cells_with_address_ranges store) c = some info ∧
          get_param_address store (.filter_bank c cm) =
            some (natToStr info.min_address ++ '/' :: natToStr info.count) ∧
          info.min_address ∈ cellAddrs store c ∧
          (∀ a ∈ cellAddrs store c, info.min_address ≤ a) ∧
          info.count = (cellAddrs store c).dedup.length) ∧
      ((∀ r ∈ store, r.cell_name ≠ c) →
        get_param_address store (.filter_bank c cm) = none)) ∧
    get_param_address ex80store (.filter_bank "Loudspeaker EQ.IIR_A".toList []) =
      some "691/80".toList := by
  constructor
  · intro store c cm
    constructor
    · intro hex
      have hne : cellAddrs store c ≠ [] := cellAddrs_ne_nil_of hex
      cases hlook : lookupA (get_cells_with_address_ranges store) c with
      | none => exact absurd ((ranges_spec store c).1 hlook) hne
      | some info =>
        obtain ⟨_, haddr, hcount, hmin, _, hbound⟩ := (ranges_spec store c).2 info hlook
        refine ⟨info, rfl, ?_, ?_, ?_, ?_⟩
        · simp [get_param_address, hlook]
        · exact mem_dedupF.mp (haddr ▸ hmin)
        · intro a ha
          exact (hbound a (haddr ▸ mem_dedupF.mpr ha)).1
        · rw [hcount, haddr, length_dedupF]
    · intro hall
      have hnil : cellAddrs store c = [] := cellAddrs_eq_nil_of hall
      cases hlook : lookupA (get_cells_with_address_ranges store) c with
      | none => simp [get_param_address, hlook]
      | some info =>
        exact absurd hnil ((ranges_spec store c).2 info hlook).1
  · decide

/-- Concrete instantiation of the quantified part of `filter_bank_resolution`. -/
theorem filter_bank_resolution_witness :
    get_param_address [⟨"X".toList, "p".toList, "5".toList⟩]
      (.filter_bank "X".toList []) = some "5/1".toList ∧
    get_param_address [⟨"X".toList, "p".toList, "5".toList⟩]
      (.filter_bank "Y".toList []) = none := by
  constructor
  · obtain ⟨info, hlook, hres, -, -, -⟩ :=
      (filter_bank_resolution.1 [⟨"X".toList, "p".toList, "5".toList⟩] "X".toList []).1
        ⟨⟨"X".toList, "p".toList, "5".toList⟩, by decide, rfl⟩
    rw [hres]
    have : info = ⟨5, 5, 1, [5]⟩ := by
      have h2 : lookupA (get_cells_with_address_ranges
          [⟨"X".toList, "p".toList, "5".toList⟩]) "X".toList = some ⟨5, 5, 1, [5]⟩ := by decide
      exact Option.some.inj (hlook.symm.trans h2)
    rw [this]
    decide
  · exact (filter_bank_resolution.1 [⟨"X".toList, "p".toList, "5".toList⟩] "Y".toList []).2
      (by decide)

/-- Input whose cell `X` holds the two address strings `7` and `007`: distinct
as strings, equal as integers. -/
def c1Content : Str :=
  ("Cell Name = X\nParameter Name = p1\nParameter Address = 7\n\n\n" ++
    "Cell Name = X\nParameter Name = p2\nParameter Address = 007").toList

/--
C1 counterexample: on the parsed store of `c1Content`, the cell `X` has two
distinct entries in its address list (`"7"` and `"007"`) but its range
aggregate has `count = 1`, because the list view deduplicates display strings
while the range view deduplicates integer values.
-/
theorem address_views_count_cex :
    (lookupA (get_cells_with_address_lists (parse_file c1Content)) "X".toList).map
      (fun l => l.dedup.length) ≠
    (lookupA (get_cells_with_address_ranges (parse_file c1Content)) "X".toList).map
      (fun i => i.count) := by decide

/--
C1 amended: for every parsed store and cell of it, the address-list and
address-range views agree once entries are read as integers: the numerically
smallest and largest list entries equal `min_address` and `max_address`, and
the number of distinct integer values among the list entries equals `count`.
(As literal strings the entry count can exceed `count`, e.g. `"7"` next to
`"007"`.)
-/
theorem address_views_consistent (store : List ParameterRecord) (c : Str) (info : RangeInfo)
    (h : lookupA (get_cells_with_address_ranges store) c = some info) :
    ∃ entries, lookupA (get_cells_with_address_lists store) c = some entries ∧
      info.min_address ∈ entries.map digitsToNat ∧
      (∀ a ∈ entries.map digitsToNat, info.min_address ≤ a) ∧
      info.max_address ∈ entries.map digitsToNat ∧
      (∀ a ∈ entries.map digitsToNat, a ≤ info.max_address) ∧
      (entries.map digitsToNat).dedup.length = info.count := by
  obtain ⟨hne, haddr, hcount, hmin, hmax, hbound⟩ := (ranges_spec store c).2 info h
  have hscne : cellStrs store c ≠ [] := by
    intro hnil
    exact hne (by unfold cellAddrs; rw [hnil]; rfl)
  cases hlraw : lookupA (rawLists store) c with
  | none => exact absurd ((lists_spec store c).1 hlraw) hscne
  | some raw =>
    obtain ⟨-, hraw⟩ := (lists_spec store c).2 raw hlraw
    have hperm : (List.insertionSort addrLe raw).Perm raw := List.perm_insertionSort _ _
    have hmemiff : ∀ x : Nat,
        x ∈ (List.insertionSort addrLe raw).map digitsToNat ↔ x ∈ cellAddrs store c := by
      intro x
      rw [List.Perm.mem_iff (hperm.map digitsToNat), hraw]
      unfold cellAddrs
      constructor
      · intro hx
        rcases List.mem_map.mp hx with ⟨s, hs, rfl⟩
        exact List.mem_map.mpr ⟨s, mem_sdedup.mp hs, rfl⟩
      · intro hx
        rcases List.mem_map.mp hx with ⟨s, hs, rfl⟩
        exact List.mem_map.mpr ⟨s, mem_sdedup.mpr hs, rfl⟩
    refine ⟨List.insertionSort addrLe raw, ?_, ?_, ?_, ?_, ?_, ?_⟩
    · rw [get_cells_with_address_lists, lookupA_map_value, hlraw]
      rfl
    · exact (hmemiff _).mpr (mem_dedupF.mp (haddr ▸ hmin))
    · intro a ha
      exact (hbound a (haddr ▸ mem_dedupF.mpr ((hmemiff a).mp ha))).1
    · exact (hmemiff _).mpr (mem_dedupF.mp (haddr ▸ hmax))
    · intro a ha
      exact (hbound a (haddr ▸ mem_dedupF.mpr ((hmemiff a).mp ha))).2
    · rw [dedup_length_eq_of_mem_iff hmemiff, hcount, haddr, length_dedupF]

/-- Concrete instantiation of `address_views_consistent`. -/
theorem address_views_consistent_witness :
    ∃ entries, lookupA (get_cells_with_address_lists
        [⟨"X".toList, "p".toList, "9".toList⟩, ⟨"X".toList, "q".toList, "7".toList⟩])
        "X".toList = some entries ∧
      (7 : Nat) ∈ entries.map digitsToNat ∧
      (∀ a ∈ entries.map digitsToNat, 7 ≤ a) ∧
      (9 : Nat) ∈ entries.map digitsToNat ∧
      (∀ a ∈ entries.map digitsToNat, a ≤ 9) ∧
      (entries.map digitsToNat).dedup.length = 2 := by
  exact address_views_consistent
    [⟨"X".toList, "p".toList, "9".toList⟩, ⟨"X".toList, "q".toList, "7".toList⟩]
    "X".toList ⟨7, 9, 2, [9, 7]⟩ (by decide)

/--
C4: a Search catalogue entry always resolves to `none`, whatever the store
holds, and the descriptor renders it as a `NOT MAPPED` comment carrying the
entry's type id and explanatory text, never as a metadata value element.
-/
theorem search_entries_unmapped (store : List ParameterRecord) (ty pat cm : Str) :
    get_param_address store (.search_pattern pat cm) = none ∧
    emit_mapped_line store ty (.search_pattern pat cm) =
      xml_indent ++ "<!-- ".toList ++ ty ++ ": ".toList ++ cm ++
        " - NOT MAPPED -->".toList := by
  exact ⟨rfl, rfl⟩

/--
C8: a ChannelPattern catalogue entry (the four `levels…Register` entries)
always resolves to the sentinel string `UNKNOWN`, and the descriptor renders
it as a metadata value element with the `storable` attribute holding the
sentinel, not as a comment.
-/
theorem channel_pattern_sentinel (store : List ParameterRecord) (ty : Str)
    (cp pp ch cm : Str) (hmem : (ty, MappingInfo.cell_pattern cp pp ch cm) ∈ param_mapping) :
    get_param_address store (.cell_pattern cp pp ch cm) = some "UNKNOWN".toList ∧
    emit_mapped_line store ty (.cell_pattern cp pp ch cm) =
      xml_indent ++ "<metadata type=\"".toList ++ ty ++
        "\" storable=\"yes\">UNKNOWN</metadata>".toList := by
  refine ⟨rfl, ?_⟩
  simp only [param_mapping, List.mem_cons, List.not_mem_nil, or_false,
    Prod.mk.injEq, MappingInfo.cell_pattern.injEq, reduceCtorEq, false_and,
    and_false, false_or] at hmem
  rcases hmem with ⟨rfl, -⟩ | ⟨rfl, -⟩ | ⟨rfl, -⟩ | ⟨rfl, -⟩ <;> rfl

/-- Concrete instantiation of `channel_pattern_sentinel` at `levelsARegister`. -/
theorem channel_pattern_sentinel_witness :
    get_param_address [] (.cell_pattern "Levels".toList "HWGainADAU145XAlg.*target".toList
      "A".toList "Level control for channel A - need to identify specific parameter".toList) =
      some "UNKNOWN".toList ∧
    emit_mapped_line [] "levelsARegister".toList
      (.cell_pattern "Levels".toList "HWGainADAU145XAlg.*target".toList "A".toList
        "Level control for channel A - need to identify specific parameter".toList) =
      xml_indent ++ "<metadata type=\"".toList ++ "levelsARegister".toList ++
        "\" storable=\"yes\">UNKNOWN</metadata>".toList := by
  exact channel_pattern_sentinel [] "levelsARegister".toList "Levels".toList
    "HWGainADAU145XAlg.*target".toList "A".toList
    "Level control for channel A - need to identify specific parameter".toList (by decide)

theorem isEmpty_false_of_ne_nil {l : Str} (h : l ≠ []) : l.isEmpty = false := by
  cases l with
  | nil => exact absurd rfl h
  | cons c rest => rfl

/--
C10 counterexample: with no preset selected and an empty-string version
argument — present, hence not absent — the emitted `profileVersion` is the
placeholder `0`, because Python's `version or '0'` treats the empty string
as falsy.
-/
theorem version_override_cex :
    profile_version_of none (some []) = "0".toList ∧
    (some ([] : Str)) ≠ (none : Option Str) := by
  exact ⟨rfl, by simp⟩

/--
C10 amended: a non-empty version override is always honoured, with or
without a known preset; when the version argument is absent *or empty*, the
emitted `profileVersion` is the preset's default for a known non-empty card
type and the placeholder `0` otherwise.
-/
theorem version_override (card_type version : Option Str) :
    (∀ v, version = some v → v ≠ [] → profile_version_of card_type version = v) ∧
    ((version = none ∨ version = some []) →
      (∀ ct m, card_type = some ct → ct ≠ [] → lookupA card_metadata ct = some m →
        profile_version_of card_type version = m.defaultVersion) ∧
      ((card_type = none ∨ ∀ ct, card_type = some ct →
          (ct = [] ∨ lookupA card_metadata ct = none)) →
        profile_version_of card_type version = "0".toList)) := by
  constructor
  · rintro v rfl hv
    have hve : v.isEmpty = false := isEmpty_false_of_ne_nil hv
    cases card_type with
    | none => simp [profile_version_of, pyOr, hve]
    | some ct =>
      cases hl : lookupA card_metadata ct with
      | none => simp [profile_version_of, pyOr, hl, hve]
      | some m =>
        by_cases hct : ct.isEmpty <;> simp [profile_version_of, pyOr, hl, hve, hct]
  · intro hver
    have hpyOr : ∀ d, pyOr version d = d := by
      rcases hver with rfl | rfl
      · intro d; rfl
      · intro d; rfl
    constructor
    · rintro ct m rfl hct hl
      have hcte : ct.isEmpty = false := isEmpty_false_of_ne_nil hct
      simp [profile_version_of, hl, hcte, hpyOr]
    · intro hcard
      cases card_type with
      | none => simp [profile_version_of, hpyOr]
      | some ct =>
        rcases hcard with h | h
        · cases h
        · rcases h ct rfl with rfl | hl
          · have hle : lookupA card_metadata ([] : Str) = none := by decide
            simp [profile_version_of, hle, hpyOr]
          · simp [profile_version_of, hl, hpyOr]

/-- Concrete instantiation of `version_override`: an explicit version is
honoured with and without a known preset; absent a version the preset
default or the placeholder is used. -/
theorem version_override_witness :
    profile_version_of none (some "42".toList) = "42".toList ∧
    profile_version_of (some "unknowncard".toList) (some "42".toList) = "42".toList ∧
    profile_version_of (some "beocreate".toList) (some "42".toList) = "42".toList ∧
    profile_version_of (some "beocreate".toList) none = "11".toList ∧
    profile_version_of none none = "0".toList := by
  refine ⟨?_, ?_, ?_, ?_, ?_⟩
  · exact (version_override none (some "42".toList)).1 "42".toList rfl (by decide)
  · exact (version_override (some "unknowncard".toList) (some "42".toList)).1
      "42".toList rfl (by decide)
  · exact (version_override (some "beocreate".toList) (some "42".toList)).1
      "42".toList rfl (by decide)
  · exact ((version_override (some "beocreate".toList) none).2 (Or.inl rfl)).1
      "beocreate".toList ⟨"Beocreate Universal".toList, "beocreate-universal".toList,
        "Beocreate 4-Channel Amplifier".toList, "beocreate-4ca-mk1".toList, "11".toList⟩
      rfl (by decide) (by decide)
  · exact ((version_override none none).2 (Or.inl rfl)).2 (Or.inl rfl)

theorem dropWhile_dropWhile (p : Char → Bool) (l : Str) :
    (l.dropWhile p).dropWhile p = l.dropWhile p := by
  induction l with
  | nil => rfl
  | cons c rest ih =>
    rw [List.dropWhile_cons]
    split
    · exact ih
    · rename_i h
      rw [List.dropWhile_cons, if_neg h]

theorem dropWhile_head?_not (p : Char → Bool) (l : Str) :
    ∀ c, (l.dropWhile p).head? = some c → p c = false := by
  induction l with
  | nil => intro c h; cases h
  | cons a rest ih =>
    intro c h
    rw [List.dropWhile_cons] at h
    split at h
    · exact ih c h
    · rename_i ha
      have : a = c := by
        have h' : some a = some c := h
        exact Option.some.inj h'
      subst this
      exact eq_false_of_ne_true ha

theorem dropWhile_eq_self_of_head? (p : Char → Bool) (l : Str)
    (h : ∀ c, l.head? = some c → p c = false) : l.dropWhile p = l := by
  cases l with
  | nil => rfl
  | cons a rest =>
    rw [List.dropWhile_cons, if_neg]
    simp [h a rfl]

theorem prefix_head? {l₁ l₂ : Str} (h : l₁ <+: l₂) (hne : l₁ ≠ []) :
    l₁.head? = l₂.head? := by
  obtain ⟨t, rfl⟩ := h
  cases l₁ with
  | nil => exact absurd rfl hne
  | cons a r => rfl

theorem pyStrip_idem (l : Str) : pyStrip (pyStrip l) = pyStrip l := by
  unfold pyStrip
  set A := l.dropWhile isPySpace with hA
  set B := (A.reverse.dropWhile isPySpace).reverse with hB
  have hAhead : ∀ c, A.head? = some c → isPySpace c = false := by
    intro c hc
    exact dropWhile_head?_not isPySpace l c (by rw [← hA]; exact hc)
  have hBpre : B <+: A := by
    rw [hB]
    exact List.reverse_suffix.mp (by rw [List.reverse_reverse]; exact List.dropWhile_suffix _)
  have hBdrop : B.dropWhile isPySpace = B := by
    by_cases hBe : B = []
    · rw [hBe]; rfl
    · apply dropWhile_eq_self_of_head?
      intro c hc
      exact hAhead c (by rw [← prefix_head? hBpre hBe]; exact hc)
  rw [hBdrop]
  have hBrev : B.reverse = A.reverse.dropWhile isPySpace := by rw [hB, List.reverse_reverse]
  rw [hBrev, dropWhile_dropWhile, ← hBrev, List.reverse_reverse]

theorem reSplitAux_no_sep :
    ∀ (fuel : Nat) (l cur : Str), containsSep l = false → l.length < fuel →
      reSplitAux fuel l cur = [cur.reverse ++ l] := by
  intro fuel
  induction fuel with
  | zero => intro l cur _ h; exact absurd h (Nat.not_lt_zero _)
  | succ f ih =>
    intro l cur hsep hlen
    cases l with
    | nil => simp [reSplitAux]
    | cons c rest =>
      unfold containsSep at hsep
      rw [Bool.or_eq_false_iff] at hsep
      obtain ⟨h1, h2⟩ := hsep
      have h1' : sepMatchLen (c :: rest) = none := by
        cases hm : sepMatchLen (c :: rest) with
        | none => rfl
        | some n => rw [hm] at h1; simp at h1
      unfold reSplitAux
      dsimp only
      rw [h1']
      dsimp only
      rw [ih rest (c :: cur) h2 (Nat.lt_of_succ_lt_succ (by simpa using hlen))]
      simp

/--
C6: every block returned by the splitter is a non-empty stripped string, and
an input in which the separator regex `\n\s*\n\s*\n` (a blank-line run of
length at least two, i.e. at least three newlines with only whitespace
between them) matches nowhere yields exactly one block — the whole stripped
content — or no block at all when the content is entirely whitespace.
Leading or trailing blank runs therefore never produce an empty block.
-/
theorem split_into_blocks_spec (content : Str) :
    (∀ b ∈ split_into_blocks content, b ≠ [] ∧ pyStrip b = b) ∧
    (containsSep content = false →
      split_into_blocks content =
        if pyStrip content = [] then [] else [pyStrip content]) := by
  constructor
  · intro b hb
    unfold split_into_blocks at hb
    obtain ⟨hbm, hbne⟩ := List.mem_filter.mp hb
    obtain ⟨x, hx, rfl⟩ := List.mem_map.mp hbm
    refine ⟨?_, pyStrip_idem x⟩
    intro habs
    rw [habs] at hbne
    simp at hbne
  · intro hsep
    unfold split_into_blocks reSplit3nl
    rw [reSplitAux_no_sep _ _ _ hsep (Nat.lt_succ_self _)]
    simp only [List.reverse_nil, List.nil_append, List.map_cons, List.map_nil]
    by_cases h : pyStrip content = []
    · rw [h, if_pos rfl]
      rfl
    · rw [if_neg h]
      simp [List.filter, isEmpty_false_of_ne_nil h]

/-- Concrete instantiation of `split_into_blocks_spec`: an input with
leading/trailing whitespace and no blank-line run yields one stripped block. -/
theorem split_into_blocks_spec_witness :
    split_into_blocks "  \nCell Name = X \n ".toList = ["Cell Name = X".toList] ∧
    ("Cell Name = X".toList ≠ ([] : Str) ∧
      pyStrip "Cell Name = X".toList = "Cell Name = X".toList) := by
  constructor
  · exact ((split_into_blocks_spec "  \nCell Name = X \n ".toList).2 (by decide)).trans
      (by decide)
  · exact (split_into_blocks_spec "  \nCell Name = X \n ".toList).1
      "Cell Name = X".toList (by decide)
